import Mathlib

/-!
Verification of the keep-alive registry (`src/gi/keep-alive.cpp`).

The registry stores a set of `Child` records in a `GHashTable` keyed by the
records themselves (hash `child_hash`, equality `child_equal`).  We embed the
pointer-typed fields as natural numbers: `Handle` for `JSObject*`, `FuncPtr`
for `GjsUnrootedFunc` (0 plays the role of `NULL`), `Ptr` for `void*`.  The
hash table is modelled as a list of `Child` values kept duplicate-free by the
table operations; iteration order of the C hash table is unspecified, so the
list order is a modelling choice that none of the proved properties depend on.

The C code distinguishes three ways an entry point can terminate:
normal return (`ok`), a `g_return_if_fail` precondition failure, which logs a
critical message and returns early without aborting (`checkFail`), and a
`g_assert`/`g_error` failure, which aborts the process (`fatal`).  The model
keeps these apart in an `Outcome` type.

Side effects of `finalize` and of entry destruction are recorded as an
explicit event trace (`FinEvent`): stealing an entry out of the table,
invoking a notifier, freeing an entry, destroying the table, freeing the
registry storage.  Events that inspect the table carry the table contents at
the moment the event happens, so ordering claims ("removed before notified",
"empty before destroyed") become statements about the recorded snapshots.
-/

abbrev Handle := Nat
abbrev FuncPtr := Nat
abbrev Ptr := Nat

/-- Model of `struct Child`: one tracked association.  Field order follows the C
struct: the handle, the notifier function pointer (0 = `NULL`), the opaque
data pointer. -/
structure Child where
  child : Handle
  notify : FuncPtr
  data : Ptr
deriving DecidableEq, Repr

/-- Model of `struct KeepAlive`: the registry private data: the backing table and the
two reentrancy flag bits. -/
structure KeepAlive where
  children : List Child
  inside_finalize : Bool
  inside_trace : Bool
deriving DecidableEq, Repr

/-- How a C entry point terminated: normal return, a `g_return_if_fail`
failure (critical logged, early return, process continues), or a
`g_assert`/`g_error` failure (process abort). -/
inductive Outcome where
  | ok
  | checkFail
  | fatal
deriving DecidableEq, Repr

/-- Macro `GPOINTER_TO_UINT`: truncation of a pointer value to `guint` (32 bits). -/
def GPOINTER_TO_UINT (p : Nat) : Nat := p % 2 ^ 32

/-- Function `child_hash`: XOR of the three pointer fields, each truncated to
`guint`. -/
def child_hash (c : Child) : Nat :=
  GPOINTER_TO_UINT c.notify ^^^ GPOINTER_TO_UINT c.child ^^^ GPOINTER_TO_UINT c.data

/-- Function `child_equal`: field-wise pointer comparison, in the C order
(data, then child, then notify). -/
def child_equal (c1 c2 : Child) : Bool :=
  c1.data == c2.data && c1.child == c2.child && c1.notify == c2.notify

/-- Model of `g_hash_table_lookup` on the children table: find an entry equal (by
`child_equal`) to the probe key. -/
def tableLookup (l : List Child) (c : Child) : Option Child :=
  l.find? (fun x => child_equal x c)

/-- Model of `g_hash_table_replace`: drop any entry with an equal key, then insert the
new one. -/
def tableReplace (l : List Child) (c : Child) : List Child :=
  l.filter (fun x => !child_equal x c) ++ [c]

/-- Model of `g_hash_table_remove`: remove the (at most one) entry whose key equals
the probe. -/
def tableRemove (l : List Child) (c : Child) : List Child :=
  l.eraseP (fun x => child_equal x c)

/-- Events recorded while the registry runs.  Snapshot-carrying events
remember the table contents at the moment they fire. -/
inductive FinEvent where
  /-- Event for `g_hash_table_iter_steal`: the entry left the table; the snapshot is
  the table contents just after the steal. -/
  | steal (c : Child) (tableAfter : List Child)
  /-- Event for the call `(* child->notify)(child->child, child->data)`; the snapshot is the
  table contents at the moment of the call. -/
  | callNotify (f : FuncPtr) (h : Handle) (d : Ptr) (table : List Child)
  /-- Event for `child_free`. -/
  | freeChild (c : Child)
  /-- Event for `g_hash_table_destroy`; the snapshot is the table contents being
  destroyed. -/
  | destroyTable (table : List Child)
  /-- Event for `g_slice_free(KeepAlive, priv)`. -/
  | freePriv
deriving DecidableEq, Repr

/-- The drain loop of `keep_alive_finalize`: steal each entry, invoke its
notifier if non-`NULL`, free it; afterwards destroy the table and free the
private data.  In the C loop every visited entry is stolen, so the table
contents always coincide with the unvisited suffix, which is what the
snapshots record. -/
def finalizeEvents : List Child → List FinEvent
  | [] => [FinEvent.destroyTable [], FinEvent.freePriv]
  | c :: rest =>
      FinEvent.steal c rest ::
      ((if c.notify ≠ 0 then [FinEvent.callNotify c.notify c.child c.data rest] else []) ++
        FinEvent.freeChild c :: finalizeEvents rest)

/-- Function `keep_alive_finalize`: `priv == NULL` (the prototype) returns with no
effect; otherwise the registry is drained. -/
def keep_alive_finalize : Option KeepAlive → List FinEvent
  | none => []
  | some p => finalizeEvents p.children

/-- The registry state a notifier observes while `keep_alive_finalize` is
draining: `inside_finalize` has been set. -/
def finalizeStartState (p : KeepAlive) : KeepAlive :=
  { p with inside_finalize := true }

/-- The notifier invocations contained in an event trace, in order. -/
def notifyCallsOf (evs : List FinEvent) : List (FuncPtr × Handle × Ptr) :=
  evs.filterMap (fun e =>
    match e with
    | FinEvent.callNotify f h d _ => some (f, h, d)
    | _ => none)

/-- Function `gjs_keep_alive_add_child` (on a non-prototype registry, `priv ≠ NULL`):
two `g_return_if_fail` reentrancy guards, construction of the new `Child`,
a `g_return_if_fail` duplicate-lookup guard, then `g_hash_table_replace`. -/
def gjs_keep_alive_add_child (p : KeepAlive) (notify : FuncPtr) (obj : Handle)
    (data : Ptr) : Outcome × KeepAlive :=
  if p.inside_trace then (Outcome.checkFail, p)
  else if p.inside_finalize then (Outcome.checkFail, p)
  else
    let child : Child := ⟨obj, notify, data⟩
    if (tableLookup p.children child).isSome then (Outcome.checkFail, p)
    else (Outcome.ok, { p with children := tableReplace p.children child })

/-- Function `gjs_keep_alive_remove_child`: the same two reentrancy guards, then
`g_hash_table_remove` with a stack `Child` as probe key.  The table's value
destroy function frees a removed entry without notifying, which the event
list records. -/
def gjs_keep_alive_remove_child (p : KeepAlive) (notify : FuncPtr) (obj : Handle)
    (data : Ptr) : Outcome × KeepAlive × List FinEvent :=
  if p.inside_trace then (Outcome.checkFail, p, [])
  else if p.inside_finalize then (Outcome.checkFail, p, [])
  else
    let probe : Child := ⟨obj, notify, data⟩
    let freed := match tableLookup p.children probe with
      | some c => [FinEvent.freeChild c]
      | none => []
    (Outcome.ok, { p with children := tableRemove p.children probe }, freed)

/-- The in-place handle update `JS_CallHeapObjectTracer` performs on one
entry when the collector relocates the child: the visitor is a function on
handle values. -/
def relocateChild (f : Handle → Handle) (c : Child) : Child :=
  { c with child := f c.child }

/-- The scan loop of `keep_alive_trace`: each entry's handle is presented to
the tracer; an entry whose handle changed is stolen out of the table and
prepended to `children_to_reinsert`.  Returns the table contents after the
scan and the reinsert list in its C order (reverse encounter order, because
of `g_slist_prepend`). -/
def traceScan (f : Handle → Handle) : List Child → List Child × List Child
  | [] => ([], [])
  | c :: rest =>
      let c2 := relocateChild f c
      let scanned := traceScan f rest
      if c2.child = c.child then (c :: scanned.1, scanned.2)
      else (scanned.1, scanned.2 ++ [c2])

/-- The table after `keep_alive_trace`'s scan plus the `g_slist_foreach`
reinsertion pass (`reinsert` calls `g_hash_table_replace`). -/
def keep_alive_trace_table (f : Handle → Handle) (l : List Child) : List Child :=
  let scanned := traceScan f l
  scanned.2.foldl (fun t c => tableReplace t c) scanned.1

/-- Function `keep_alive_trace` (on a non-prototype registry): `g_assert` that the
trace is not reentrant, scan and relocate, reset `inside_trace`. -/
def keep_alive_trace (f : Handle → Handle) (p : KeepAlive) : Outcome × KeepAlive :=
  if p.inside_trace then (Outcome.fatal, p)
  else
    (Outcome.ok,
      { p with children := keep_alive_trace_table f p.children, inside_trace := false })

/-- The registry state a callback observes while `keep_alive_trace` is
scanning: `inside_trace` has been set. -/
def traceStartState (p : KeepAlive) : KeepAlive :=
  { p with inside_trace := true }

/-- The context-scoped storage the singleton accessor uses: the
`GJS_GLOBAL_SLOT_KEEP_ALIVE` slot, holding the registry's private data when a
keep-alive object has been recorded there. -/
structure JSContextModel where
  keep_alive_slot : Option KeepAlive
deriving DecidableEq, Repr

/-- A freshly constructed registry: empty table, both flags clear
(`g_slice_new0`). -/
def emptyKeepAlive : KeepAlive :=
  { children := [], inside_finalize := false, inside_trace := false }

/-- Function `gjs_keep_alive_create`: build a new keep-alive object and record it in
the global slot.  (Allocation failure aborts via `g_error` inside; the model
covers the surviving path, which always yields a registry.) -/
def gjs_keep_alive_create (_ctx : JSContextModel) : JSContextModel × KeepAlive :=
  ({ keep_alive_slot := some emptyKeepAlive }, emptyKeepAlive)

/-- Function `gjs_keep_alive_get_global_if_exists`: read-only probe of the slot. -/
def gjs_keep_alive_get_global_if_exists (ctx : JSContextModel) : Option KeepAlive :=
  ctx.keep_alive_slot

/-- Function `gjs_keep_alive_get_global`: return the recorded registry, constructing
and recording one when the slot is empty. -/
def gjs_keep_alive_get_global (ctx : JSContextModel) : JSContextModel × KeepAlive :=
  match gjs_keep_alive_get_global_if_exists ctx with
  | some k => (ctx, k)
  | none => gjs_keep_alive_create ctx

/-- Function `gjs_keep_alive_remove_global_child`: fetch the global registry with
`gjs_keep_alive_get_global`, abort via `g_error` if it is `NULL` (which
`gjs_keep_alive_get_global` never returns in the surviving path), then
delegate to `gjs_keep_alive_remove_child` and store the updated registry
back. -/
def gjs_keep_alive_remove_global_child (ctx : JSContextModel) (notify : FuncPtr)
    (obj : Handle) (data : Ptr) : Outcome × JSContextModel :=
  let fetched := gjs_keep_alive_get_global ctx
  let removed := gjs_keep_alive_remove_child fetched.2 notify obj data
  (removed.1, { fetched.1 with keep_alive_slot := some removed.2.1 })

/-- Function `gjs_keep_alive_add_global_child`: fetch (or construct) the global
registry, then delegate to `gjs_keep_alive_add_child`. -/
def gjs_keep_alive_add_global_child (ctx : JSContextModel) (notify : FuncPtr)
    (obj : Handle) (data : Ptr) : Outcome × JSContextModel :=
  let fetched := gjs_keep_alive_get_global ctx
  let added := gjs_keep_alive_add_child fetched.2 notify obj data
  (added.1, { fetched.1 with keep_alive_slot := some added.2 })

/-- Function `gjs_keep_alive_iterator_next`: advance over the iterator's remaining
entries until one whose `notify` equals the filter is found; yield its
`(child, data)` and the remaining iterator state, or `none` when the
traversal is exhausted. -/
def gjs_keep_alive_iterator_next (notify_func : FuncPtr) :
    List Child → Option (Handle × Ptr) × List Child
  | [] => (none, [])
  | c :: rest =>
      if c.notify = notify_func then (some (c.child, c.data), rest)
      else gjs_keep_alive_iterator_next notify_func rest

/-- Driving the iterator to exhaustion: call `gjs_keep_alive_iterator_next`
repeatedly, collecting the yielded pairs.  `fuel` bounds the number of calls;
the table length is always enough, since each successful call consumes at
least one entry. -/
def driveIter (notify_func : FuncPtr) : Nat → List Child → List (Handle × Ptr)
  | 0, _ => []
  | fuel + 1, l =>
      match gjs_keep_alive_iterator_next notify_func l with
      | (none, _) => []
      | (some p, rest) => p :: driveIter notify_func fuel rest

/-- Function `gjs_keep_alive_iterator_init` starts the traversal at the full table;
this is the whole single-pass traversal of a registry under a filter. -/
def iterateChildren (p : KeepAlive) (notify_func : FuncPtr) : List (Handle × Ptr) :=
  driveIter notify_func p.children.length p.children

/-! ### Basic facts about entry equality and the table operations -/

/-- The C equality predicate coincides with structural equality of the
triple. -/
theorem child_equal_iff (c1 c2 : Child) : child_equal c1 c2 = true ↔ c1 = c2 := by
  cases c1
  cases c2
  simp only [child_equal, Bool.and_eq_true, beq_iff_eq, Child.mk.injEq]
  tauto

/-- A lookup succeeds exactly when the probe triple is in the table. -/
theorem tableLookup_isSome_iff (l : List Child) (c : Child) :
    (tableLookup l c).isSome = true ↔ c ∈ l := by
  unfold tableLookup
  rw [List.find?_isSome]
  constructor
  · rintro ⟨x, hx, hxc⟩
    rw [child_equal_iff] at hxc
    exact hxc ▸ hx
  · intro hc
    exact ⟨c, hc, (child_equal_iff c c).mpr rfl⟩

/-- A lookup of an absent triple returns `NULL`. -/
theorem tableLookup_eq_none (l : List Child) (c : Child) (h : c ∉ l) :
    tableLookup l c = none := by
  unfold tableLookup
  rw [List.find?_eq_none]
  intro x hx hxc
  rw [child_equal_iff] at hxc
  exact h (hxc ▸ hx)

/-- Removing an absent triple leaves the table untouched. -/
theorem tableRemove_of_not_mem (l : List Child) (c : Child) (h : c ∉ l) :
    tableRemove l c = l := by
  unfold tableRemove
  apply List.eraseP_of_forall_not
  intro a ha hac
  rw [child_equal_iff] at hac
  exact h (hac ▸ ha)

/-- The remove operation is `List.erase` of the probe value. -/
theorem tableRemove_eq_erase (l : List Child) (c : Child) :
    tableRemove l c = l.erase c := by
  rw [List.erase_eq_eraseP]
  unfold tableRemove
  congr 1
  funext x
  rcases Decidable.em (x = c) with h | h
  · subst h
    simp [child_equal_iff]
  · have h1 : child_equal x c = false := by
      rcases Bool.eq_false_or_eq_true (child_equal x c) with hb | hb
      · exact absurd ((child_equal_iff x c).mp hb) h
      · exact hb
    have h2 : (c == x) = false := by
      simp [Ne.symm h]
    rw [h1, h2]

/-- Membership in the table after a remove, on a duplicate-free table. -/
theorem mem_tableRemove_iff (l : List Child) (c x : Child) (hnd : l.Nodup) :
    x ∈ tableRemove l c ↔ x ≠ c ∧ x ∈ l := by
  rw [tableRemove_eq_erase]
  exact List.Nodup.mem_erase_iff hnd

/-- Membership in the table after a replace. -/
theorem mem_tableReplace (l : List Child) (c x : Child) :
    x ∈ tableReplace l c ↔ (x ∈ l ∧ x ≠ c) ∨ x = c := by
  unfold tableReplace
  simp only [List.mem_append, List.mem_filter, List.mem_singleton,
    Bool.not_eq_true']
  constructor
  · rintro (⟨hx, hne⟩ | hx)
    · left
      refine ⟨hx, fun hxc => ?_⟩
      rw [(child_equal_iff x c).mpr hxc] at hne
      cases hne
    · right
      exact hx
  · rintro (⟨hx, hne⟩ | hx)
    · left
      refine ⟨hx, ?_⟩
      rcases Bool.eq_false_or_eq_true (child_equal x c) with hb | hb
      · exact absurd ((child_equal_iff x c).mp hb) hne
      · exact hb
    · right
      exact hx

/-- Replace keeps the table duplicate-free. -/
theorem nodup_tableReplace (l : List Child) (c : Child) (h : l.Nodup) :
    (tableReplace l c).Nodup := by
  unfold tableReplace
  rw [List.nodup_append]
  refine ⟨(List.filter_sublist l).nodup h, List.nodup_singleton c, ?_⟩
  intro x hx hxc
  rw [List.mem_singleton] at hxc
  rw [List.mem_filter] at hx
  rw [Bool.not_eq_true'] at hx
  rw [(child_equal_iff x c).mpr hxc] at hx
  cases hx.2

/-! ### Facts about the reinsertion pass and the trace scan -/

/-- An entry already in the table is still in it after any replace. -/
theorem mem_tableReplace_of_mem (l : List Child) (c x : Child) (h : x ∈ l) :
    x ∈ tableReplace l c := by
  rw [mem_tableReplace]
  rcases Decidable.em (x = c) with hxc | hxc
  · right
    exact hxc
  · left
    exact ⟨h, hxc⟩

/-- An entry in the table survives the whole reinsertion pass. -/
theorem mem_foldl_tableReplace_of_mem (ys : List Child) (t : List Child) (x : Child)
    (h : x ∈ t) : x ∈ ys.foldl (fun t c => tableReplace t c) t := by
  induction ys generalizing t with
  | nil => exact h
  | cons y ys ih => exact ih _ (mem_tableReplace_of_mem _ _ _ h)

/-- Every reinserted entry is in the table after the reinsertion pass. -/
theorem mem_foldl_tableReplace_of_mem_list (ys : List Child) (t : List Child) (x : Child)
    (h : x ∈ ys) : x ∈ ys.foldl (fun t c => tableReplace t c) t := by
  induction ys generalizing t with
  | nil => cases h
  | cons y ys ih =>
      rw [List.foldl_cons]
      rcases List.mem_cons.mp h with h1 | h1
      · subst h1
        apply mem_foldl_tableReplace_of_mem
        rw [mem_tableReplace]
        right
        rfl
      · exact ih _ h1

/-- Anything in the table after the reinsertion pass was either there before
or was reinserted. -/
theorem mem_foldl_tableReplace_cases (ys : List Child) (t : List Child) (x : Child)
    (h : x ∈ ys.foldl (fun t c => tableReplace t c) t) : x ∈ t ∨ x ∈ ys := by
  induction ys generalizing t with
  | nil => exact Or.inl h
  | cons y ys ih =>
      rcases ih _ h with h1 | h1
      · rw [mem_tableReplace] at h1
        rcases h1 with ⟨h1, _⟩ | h1
        · exact Or.inl h1
        · subst h1
          exact Or.inr (List.mem_cons_self _ _)
      · exact Or.inr (List.mem_cons_of_mem _ h1)

/-- The reinsertion pass keeps the table duplicate-free. -/
theorem nodup_foldl_tableReplace (ys : List Child) (t : List Child) (h : t.Nodup) :
    (ys.foldl (fun t c => tableReplace t c) t).Nodup := by
  induction ys generalizing t with
  | nil => exact h
  | cons y ys ih => exact ih _ (nodup_tableReplace _ _ h)

/-- The entries an unmoved handle leaves in place: the scan keeps exactly the
entries whose handle the visitor did not change. -/
theorem traceScan_fst_eq (f : Handle → Handle) (l : List Child) :
    (traceScan f l).1 = l.filter (fun c => f c.child == c.child) := by
  induction l with
  | nil => rfl
  | cons c rest ih =>
      rcases Decidable.em (f c.child = c.child) with h | h
      · simp [traceScan, relocateChild, h, ih, List.filter_cons]
      · simp [traceScan, relocateChild, h, ih, List.filter_cons]

/-- The reinsert list: the moved entries, already relocated, in reverse
encounter order (the C code builds it by prepending). -/
theorem traceScan_snd_eq (f : Handle → Handle) (l : List Child) :
    (traceScan f l).2 =
      ((l.filter (fun c => !(f c.child == c.child))).map (relocateChild f)).reverse := by
  induction l with
  | nil => rfl
  | cons c rest ih =>
      rcases Decidable.em (f c.child = c.child) with h | h
      · simp [traceScan, relocateChild, h, ih, List.filter_cons]
      · simp [traceScan, relocateChild, h, ih, List.filter_cons]

/-- Relocation by an unmoved handle is the identity on the entry. -/
theorem relocateChild_eq_self (f : Handle → Handle) (c : Child)
    (h : f c.child = c.child) : relocateChild f c = c := by
  cases c
  simp only [relocateChild]
  simp only at h
  simp [h]

/-- Every entry of the table is in the traced table under its (possibly
relocated) identity. -/
theorem mem_trace_table_of_mem (f : Handle → Handle) (l : List Child) (e : Child)
    (he : e ∈ l) : relocateChild f e ∈ keep_alive_trace_table f l := by
  unfold keep_alive_trace_table
  rcases Decidable.em (f e.child = e.child) with h | h
  · apply mem_foldl_tableReplace_of_mem
    rw [traceScan_fst_eq, relocateChild_eq_self f e h, List.mem_filter]
    exact ⟨he, by simp [h]⟩
  · apply mem_foldl_tableReplace_of_mem_list
    rw [traceScan_snd_eq, List.mem_reverse, List.mem_map]
    exact ⟨e, List.mem_filter.mpr ⟨he, by simp [h]⟩, rfl⟩

/-- Everything in the traced table comes from an entry of the original table
under relocation. -/
theorem mem_trace_table_elim (f : Handle → Handle) (l : List Child) (x : Child)
    (h : x ∈ keep_alive_trace_table f l) : ∃ e ∈ l, x = relocateChild f e := by
  unfold keep_alive_trace_table at h
  rcases mem_foldl_tableReplace_cases _ _ _ h with h1 | h1
  · rw [traceScan_fst_eq, List.mem_filter] at h1
    obtain ⟨hm, hp⟩ := h1
    rw [beq_iff_eq] at hp
    exact ⟨x, hm, (relocateChild_eq_self f x hp).symm⟩
  · rw [traceScan_snd_eq, List.mem_reverse, List.mem_map] at h1
    obtain ⟨e, hef, hex⟩ := h1
    exact ⟨e, (List.mem_filter.mp hef).1, hex.symm⟩

/-- The traced table is duplicate-free when the table was. -/
theorem nodup_trace_table (f : Handle → Handle) (l : List Child) (h : l.Nodup) :
    (keep_alive_trace_table f l).Nodup := by
  unfold keep_alive_trace_table
  apply nodup_foldl_tableReplace
  rw [traceScan_fst_eq]
  exact (List.filter_sublist l).nodup h

/-- A scan in which no handle moves leaves the table untouched. -/
theorem trace_table_no_moves (f : Handle → Handle) (l : List Child)
    (h : ∀ e ∈ l, f e.child = e.child) : keep_alive_trace_table f l = l := by
  unfold keep_alive_trace_table
  have h2 : (traceScan f l).2 = [] := by
    rw [traceScan_snd_eq]
    simp only [List.reverse_eq_nil_iff, List.map_eq_nil_iff]
    rw [List.filter_eq_nil_iff]
    intro e he
    simp [h e he]
  have h1 : (traceScan f l).1 = l := by
    rw [traceScan_fst_eq]
    rw [List.filter_eq_self]
    intro e he
    simp [h e he]
  show (traceScan f l).2.foldl (fun t c => tableReplace t c) (traceScan f l).1 = l
  rw [h2, h1]
  rfl

/-! ### Facts about the finalize drain loop -/

/-- The argument triple a notifier receives: the notifier itself and the
`(handle, data)` pair it is called with. -/
def notifyTriple (c : Child) : FuncPtr × Handle × Ptr :=
  (c.notify, c.child, c.data)

/-- The notifier argument triple determines the entry. -/
theorem notifyTriple_inj (a b : Child) (h : notifyTriple a = notifyTriple b) :
    a = b := by
  cases a
  cases b
  simp only [notifyTriple, Prod.mk.injEq] at h
  simp [h.1, h.2.1, h.2.2]

/-- The drain loop notifies exactly the entries with a non-`NULL` notifier,
in table order, each with its own `(handle, data)`. -/
theorem notifyCallsOf_finalizeEvents (l : List Child) :
    notifyCallsOf (finalizeEvents l) =
      l.filterMap (fun c => if c.notify ≠ 0 then some (notifyTriple c) else none) := by
  induction l with
  | nil => rfl
  | cons c rest ih =>
      rcases Decidable.em (c.notify = 0) with h | h
      · simp [finalizeEvents, notifyCallsOf, h, List.filterMap_cons, List.filterMap_append,
          notifyCallsOf] at ih ⊢
        exact ih
      · simp [finalizeEvents, notifyCallsOf, h, List.filterMap_cons, List.filterMap_append,
          notifyTriple] at ih ⊢
        exact ih

/-- Number of occurrences of a value in a list, by decidable equality. -/
def countOcc {α : Type} [DecidableEq α] (a : α) (ls : List α) : Nat :=
  ls.countP (fun x => decide (x = a))

/-- A member of a duplicate-free list occurs in it exactly once. -/
theorem countOcc_eq_one {α : Type} [DecidableEq α] (a : α) (ls : List α)
    (hnd : ls.Nodup) (ha : a ∈ ls) : countOcc a ls = 1 := by
  induction ls with
  | nil => cases ha
  | cons b bs ih =>
      obtain ⟨hb, hbs⟩ := List.nodup_cons.mp hnd
      rcases List.mem_cons.mp ha with h | h
      · subst h
        have h0 : bs.countP (fun x => decide (x = a)) = 0 := by
          rw [List.countP_eq_zero]
          intro x hx
          simp only [decide_eq_true_eq]
          intro hxa
          exact hb (hxa ▸ hx)
        simp [countOcc, List.countP_cons, h0]
      · have hba : ¬(b = a) := fun hba => hb (hba ▸ h)
        simp only [countOcc, List.countP_cons, decide_eq_true_eq, if_neg hba, Nat.add_zero]
        exact ih hbs h

/-- On a duplicate-free table, each entry with a notifier is notified exactly
once. -/
theorem notify_count_one (l : List Child) (hnd : l.Nodup) (c : Child)
    (hc : c ∈ l) (hn : c.notify ≠ 0) :
    countOcc (notifyTriple c) (notifyCallsOf (finalizeEvents l)) = 1 := by
  rw [notifyCallsOf_finalizeEvents]
  apply countOcc_eq_one
  · apply List.Nodup.filterMap
    · intro a a' b ha ha'
      rcases Decidable.em (a.notify = 0) with h1 | h1
      · simp [h1] at ha
      · rcases Decidable.em (a'.notify = 0) with h2 | h2
        · simp [h2] at ha'
        · simp only [h1, h2, ne_eq, not_false_eq_true, if_true, Option.mem_def,
            Option.some.injEq] at ha ha'
          exact notifyTriple_inj a a' (ha.trans ha'.symm)
    · exact hnd
  · rw [List.mem_filterMap]
    exact ⟨c, hc, by simp [hn]⟩

/-- At the moment a notifier fires, the notified entry is no longer in the
table. -/
theorem finalize_callNotify_snapshot (l : List Child) (hnd : l.Nodup) :
    ∀ fp h d t, FinEvent.callNotify fp h d t ∈ finalizeEvents l →
      Child.mk h fp d ∉ t := by
  induction l with
  | nil =>
      intro fp h d t ht
      simp [finalizeEvents] at ht
  | cons c rest ih =>
      obtain ⟨hc, hr⟩ := List.nodup_cons.mp hnd
      intro fp h d t ht
      rcases Decidable.em (c.notify = 0) with h0 | h0
      · simp only [finalizeEvents, h0, ne_eq, not_true_eq_false, if_false, List.nil_append,
          List.mem_cons] at ht
        rcases ht with ht | ht | ht
        · cases ht
        · cases ht
        · exact ih hr fp h d t ht
      · simp only [finalizeEvents, h0, ne_eq, not_false_eq_true, if_true, List.cons_append,
          List.nil_append, List.mem_cons] at ht
        rcases ht with ht | ht | ht | ht
        · cases ht
        · obtain ⟨hfp, hh, hd, htt⟩ := FinEvent.callNotify.inj ht
          subst hfp
          subst hh
          subst hd
          subst htt
          intro hmem
          exact hc hmem
        · cases ht
        · exact ih hr fp h d t ht

/-- Every entry of the table is freed by the drain loop. -/
theorem finalize_free_all (l : List Child) :
    ∀ c ∈ l, FinEvent.freeChild c ∈ finalizeEvents l := by
  induction l with
  | nil =>
      intro c hc
      cases hc
  | cons c rest ih =>
      intro x hx
      rcases List.mem_cons.mp hx with hx | hx
      · subst hx
        simp [finalizeEvents]
      · rcases Decidable.em (c.notify = 0) with h0 | h0
        · simp only [finalizeEvents, h0, ne_eq, not_true_eq_false, if_false, List.nil_append,
            List.mem_cons]
          exact Or.inr (Or.inr (ih x hx))
        · simp only [finalizeEvents, h0, ne_eq, not_false_eq_true, if_true, List.cons_append,
            List.nil_append, List.mem_cons]
          exact Or.inr (Or.inr (Or.inr (ih x hx)))

/-- The table is empty at the moment it is destroyed. -/
theorem finalize_destroy_empty (l : List Child) :
    ∀ t, FinEvent.destroyTable t ∈ finalizeEvents l → t = [] := by
  induction l with
  | nil =>
      intro t ht
      simp only [finalizeEvents, List.mem_cons, List.not_mem_nil, or_false] at ht
      rcases ht with ht | ht
      · exact FinEvent.destroyTable.inj ht
      · cases ht
  | cons c rest ih =>
      intro t ht
      rcases Decidable.em (c.notify = 0) with h0 | h0
      · simp only [finalizeEvents, h0, ne_eq, not_true_eq_false, if_false, List.nil_append,
          List.mem_cons] at ht
        rcases ht with ht | ht | ht
        · cases ht
        · cases ht
        · exact ih t ht
      · simp only [finalizeEvents, h0, ne_eq, not_false_eq_true, if_true, List.cons_append,
          List.nil_append, List.mem_cons] at ht
        rcases ht with ht | ht | ht | ht
        · cases ht
        · cases ht
        · cases ht
        · exact ih t ht

/-! ### The filtered iterator -/

/-- Driving the iterator with enough fuel yields exactly the `(handle, data)`
pairs of the entries whose notifier equals the filter, in table order. -/
theorem driveIter_eq_filter (nf : FuncPtr) (l : List Child) :
    ∀ fuel, l.length ≤ fuel →
      driveIter nf fuel l =
        (l.filter (fun c => c.notify == nf)).map (fun c => (c.child, c.data)) := by
  induction l with
  | nil =>
      intro fuel _
      cases fuel with
      | zero => rfl
      | succ k => rfl
  | cons c rest ih =>
      intro fuel hf
      obtain ⟨k, rfl⟩ : ∃ k, fuel = k + 1 := by
        cases fuel with
        | zero => simp at hf
        | succ k => exact ⟨k, rfl⟩
      rcases Decidable.em (c.notify = nf) with h | h
      · have hrest : rest.length ≤ k := by
          simp only [List.length_cons] at hf
          omega
        simp only [driveIter, gjs_keep_alive_iterator_next, if_pos h]
        rw [List.filter_cons_of_pos (by simp [h]), List.map_cons, ih k hrest]
      · have hstep : driveIter nf (k + 1) (c :: rest) = driveIter nf (k + 1) rest := by
          simp [driveIter, gjs_keep_alive_iterator_next, h]
        rw [hstep, List.filter_cons_of_neg (by simp [h]), ih (k + 1) (by
          simp only [List.length_cons] at hf
          omega)]

/-! ### Claim theorems -/

/-- C9: if `child_equal` judges two entries equal then `child_hash` gives
them the same hash value. -/
theorem C9_equal_implies_equal_hash (c1 c2 : Child) (h : child_equal c1 c2 = true) :
    child_hash c1 = child_hash c2 := by
  rw [(child_equal_iff c1 c2).mp h]

/-- Witness for C9 at a concrete pair of equal entries. -/
theorem C9_equal_implies_equal_hash_witness :
    child_equal ⟨1, 2, 3⟩ ⟨1, 2, 3⟩ = true ∧
    child_hash ⟨1, 2, 3⟩ = child_hash ⟨1, 2, 3⟩ :=
  ⟨by decide, C9_equal_implies_equal_hash ⟨1, 2, 3⟩ ⟨1, 2, 3⟩ (by decide)⟩

/-- C10: whenever `gjs_keep_alive_add_child` returns early because a guarded
precondition fails (reentrancy flag set, or an identical triple already
present), it reports the check failure and leaves the registry exactly as it
was. -/
theorem C10_add_early_return_no_mutation (p : KeepAlive) (n : FuncPtr) (h : Handle)
    (d : Ptr)
    (hguard : p.inside_trace = true ∨ p.inside_finalize = true ∨
      Child.mk h n d ∈ p.children) :
    (gjs_keep_alive_add_child p n h d).1 = Outcome.checkFail ∧
    (gjs_keep_alive_add_child p n h d).2 = p := by
  simp only [gjs_keep_alive_add_child]
  split_ifs with h1 h2 h3
  · exact ⟨rfl, rfl⟩
  · exact ⟨rfl, rfl⟩
  · exact ⟨rfl, rfl⟩
  · exfalso
    rcases hguard with hg | hg | hg
    · exact h1 hg
    · exact h2 hg
    · exact h3 ((tableLookup_isSome_iff p.children ⟨h, n, d⟩).mpr hg)

/-- Witness for C10: add during a trace pass leaves the registry intact. -/
theorem C10_add_early_return_no_mutation_witness :
    ((⟨[], false, true⟩ : KeepAlive).inside_trace = true ∨
      (⟨[], false, true⟩ : KeepAlive).inside_finalize = true ∨
      Child.mk 2 1 3 ∈ (⟨[], false, true⟩ : KeepAlive).children) ∧
    (gjs_keep_alive_add_child ⟨[], false, true⟩ 1 2 3).1 = Outcome.checkFail ∧
    (gjs_keep_alive_add_child ⟨[], false, true⟩ 1 2 3).2 = ⟨[], false, true⟩ :=
  ⟨Or.inl (by decide),
    C10_add_early_return_no_mutation ⟨[], false, true⟩ 1 2 3 (Or.inl (by decide))⟩

/-- C2 (counterexample): with the triple `(notifier 1, handle 2, data 3)`
already registered, a second add of the same triple takes the
`g_return_if_fail` path: the check failure is reported and the function
returns with the registry unchanged, whereas the claim calls for a
process-terminating abort (`Outcome.fatal`). -/
theorem C2_duplicate_add_counterexample :
    gjs_keep_alive_add_child ⟨[⟨2, 1, 3⟩], false, false⟩ 1 2 3 =
      (Outcome.checkFail, ⟨[⟨2, 1, 3⟩], false, false⟩) ∧
    Outcome.checkFail ≠ Outcome.fatal := by
  decide

/-- C2 (amended): a second add of an already-present triple is rejected
through the reported `g_return_if_fail` check and returns early with the
registry unchanged — the existing entry is neither merged nor overwritten —
but the rejection is not process-terminating. -/
theorem C2_duplicate_add_rejected (p : KeepAlive) (n : FuncPtr) (h : Handle) (d : Ptr)
    (htr : p.inside_trace = false) (hfin : p.inside_finalize = false)
    (hdup : Child.mk h n d ∈ p.children) :
    gjs_keep_alive_add_child p n h d = (Outcome.checkFail, p) := by
  have hl : (tableLookup p.children ⟨h, n, d⟩).isSome = true :=
    (tableLookup_isSome_iff _ _).mpr hdup
  simp [gjs_keep_alive_add_child, htr, hfin, hl]

/-- Witness for the amended C2 at a concrete duplicate registration. -/
theorem C2_duplicate_add_rejected_witness :
    ((⟨[⟨2, 1, 3⟩], false, false⟩ : KeepAlive).inside_trace = false ∧
      (⟨[⟨2, 1, 3⟩], false, false⟩ : KeepAlive).inside_finalize = false ∧
      Child.mk 2 1 3 ∈ (⟨[⟨2, 1, 3⟩], false, false⟩ : KeepAlive).children) ∧
    gjs_keep_alive_add_child ⟨[⟨2, 1, 3⟩], false, false⟩ 1 2 3 =
      (Outcome.checkFail, ⟨[⟨2, 1, 3⟩], false, false⟩) :=
  ⟨⟨by decide, by decide, by decide⟩,
    C2_duplicate_add_rejected ⟨[⟨2, 1, 3⟩], false, false⟩ 1 2 3
      (by decide) (by decide) (by decide)⟩

/-- C3 (counterexample): from the state a notifier observes during finalize
(`inside_finalize` set), both add and remove take the `g_return_if_fail`
path: the violation is reported and the call returns early, whereas the
claim calls for a process-terminating abort (`Outcome.fatal`). -/
theorem C3_reentrancy_counterexample :
    gjs_keep_alive_add_child (finalizeStartState ⟨[], false, false⟩) 1 2 3 =
      (Outcome.checkFail, finalizeStartState ⟨[], false, false⟩) ∧
    gjs_keep_alive_remove_child (finalizeStartState ⟨[], false, false⟩) 1 2 3 =
      (Outcome.checkFail, finalizeStartState ⟨[], false, false⟩, []) ∧
    Outcome.checkFail ≠ Outcome.fatal := by
  decide

/-- C3 (amended): calling add or remove while `insideTrace` or
`insideFinalize` is set is rejected through the reported `g_return_if_fail`
precondition checks and returns early with the registry unchanged; the
rejection is reported, not process-terminating. -/
theorem C3_reentrancy_rejected (p : KeepAlive) (n : FuncPtr) (h : Handle) (d : Ptr)
    (hguard : p.inside_trace = true ∨ p.inside_finalize = true) :
    gjs_keep_alive_add_child p n h d = (Outcome.checkFail, p) ∧
    gjs_keep_alive_remove_child p n h d = (Outcome.checkFail, p, []) := by
  rcases Decidable.em (p.inside_trace = true) with h1 | h1
  · constructor <;>
      simp [gjs_keep_alive_add_child, gjs_keep_alive_remove_child, h1]
  · have h2 : p.inside_finalize = true := by
      rcases hguard with hg | hg
      · exact absurd hg h1
      · exact hg
    have h3 : p.inside_trace = false := by
      simpa using h1
    constructor <;>
      simp [gjs_keep_alive_add_child, gjs_keep_alive_remove_child, h2, h3]

/-- Witness for the amended C3 at the state observed during finalize. -/
theorem C3_reentrancy_rejected_witness :
    ((finalizeStartState ⟨[], false, false⟩).inside_trace = true ∨
      (finalizeStartState ⟨[], false, false⟩).inside_finalize = true) ∧
    (gjs_keep_alive_add_child (finalizeStartState ⟨[], false, false⟩) 4 5 6 =
      (Outcome.checkFail, finalizeStartState ⟨[], false, false⟩) ∧
     gjs_keep_alive_remove_child (finalizeStartState ⟨[], false, false⟩) 4 5 6 =
      (Outcome.checkFail, finalizeStartState ⟨[], false, false⟩, [])) :=
  ⟨Or.inr (by decide),
    C3_reentrancy_rejected (finalizeStartState ⟨[], false, false⟩) 4 5 6
      (Or.inr (by decide))⟩

/-- C7: removing a triple that is not registered — with the reentrancy guards
clear — returns normally, records no notifier call and no free, and leaves
the registry unchanged. -/
theorem C7_remove_absent_noop (p : KeepAlive) (n : FuncPtr) (h : Handle) (d : Ptr)
    (htr : p.inside_trace = false) (hfin : p.inside_finalize = false)
    (habs : Child.mk h n d ∉ p.children) :
    gjs_keep_alive_remove_child p n h d = (Outcome.ok, p, []) := by
  obtain ⟨cs, fin, tr⟩ := p
  replace htr : tr = false := htr
  replace hfin : fin = false := hfin
  subst htr
  subst hfin
  replace habs : Child.mk h n d ∉ cs := habs
  have hl : tableLookup cs ⟨h, n, d⟩ = none := tableLookup_eq_none _ _ habs
  have hr : tableRemove cs ⟨h, n, d⟩ = cs := tableRemove_of_not_mem _ _ habs
  simp [gjs_keep_alive_remove_child, hl, hr]

/-- Witness for C7 at a concrete absent triple. -/
theorem C7_remove_absent_noop_witness :
    ((⟨[⟨2, 1, 3⟩], false, false⟩ : KeepAlive).inside_trace = false ∧
      (⟨[⟨2, 1, 3⟩], false, false⟩ : KeepAlive).inside_finalize = false ∧
      Child.mk 2 9 3 ∉ (⟨[⟨2, 1, 3⟩], false, false⟩ : KeepAlive).children) ∧
    gjs_keep_alive_remove_child ⟨[⟨2, 1, 3⟩], false, false⟩ 9 2 3 =
      (Outcome.ok, ⟨[⟨2, 1, 3⟩], false, false⟩, []) :=
  ⟨⟨by decide, by decide, by decide⟩,
    C7_remove_absent_noop ⟨[⟨2, 1, 3⟩], false, false⟩ 9 2 3
      (by decide) (by decide) (by decide)⟩

/-- C4: on a context whose keep-alive slot is empty, removeGlobalChild does
not fail: `gjs_keep_alive_get_global` constructs a fresh registry, records it
in the slot, and the remove silently no-ops on it — the function's own
`g_error` guard is unreachable.  The claim (and the spec) says this must be a
fatal contract breach; the code constructs a registry and silently
succeeds. -/
theorem C4_remove_global_without_registry :
    gjs_keep_alive_remove_global_child ⟨none⟩ 1 2 3 =
      (Outcome.ok, ⟨some emptyKeepAlive⟩) ∧
    Outcome.ok ≠ Outcome.fatal := by
  decide

/-- C8: a full filtered traversal with `gjs_keep_alive_iterator_next` yields
exactly the `(handle, data)` pairs of the entries whose notifier equals the
filter, each once, and no others. -/
theorem C8_filtered_iteration (p : KeepAlive) (nf : FuncPtr) :
    iterateChildren p nf =
      (p.children.filter (fun c => c.notify == nf)).map (fun c => (c.child, c.data)) :=
  driveIter_eq_filter nf p.children p.children.length le_rfl

/-- The drain behaviour claimed for finalize on registry state `p`: the
notifier calls are exactly those of the entries with a non-`NULL` notifier,
with their own `(handle, data)`; each such entry is notified exactly once; at
the moment an entry's notifier fires the entry is no longer in the table;
every entry (notifier or not) is freed; and the table is empty at the moment
it is destroyed (before the registry storage is freed, which is the trailing
event). -/
def FinalizeDrainProp (p : KeepAlive) : Prop :=
  notifyCallsOf (keep_alive_finalize (some p)) =
    p.children.filterMap
      (fun c => if c.notify ≠ 0 then some (notifyTriple c) else none) ∧
  (∀ c ∈ p.children, c.notify ≠ 0 →
    countOcc (notifyTriple c) (notifyCallsOf (keep_alive_finalize (some p))) = 1) ∧
  (∀ fp h d t, FinEvent.callNotify fp h d t ∈ keep_alive_finalize (some p) →
    Child.mk h fp d ∉ t) ∧
  (∀ c ∈ p.children, FinEvent.freeChild c ∈ keep_alive_finalize (some p)) ∧
  (∀ t, FinEvent.destroyTable t ∈ keep_alive_finalize (some p) → t = [])

/-- C1: finalize on a registry with a non-empty (duplicate-free) entry set
removes each entry from the set before invoking its notifier with
`(handle, data)`, calls each present notifier exactly once, releases entries
with an absent notifier without notification, and leaves the entry set empty
before the backing set and the registry storage are released. -/
theorem C1_finalize_drains (p : KeepAlive) (_hne : p.children ≠ [])
    (hnd : p.children.Nodup) : FinalizeDrainProp p := by
  refine ⟨notifyCallsOf_finalizeEvents p.children, ?_, ?_, ?_, ?_⟩
  · intro c hc hn
    exact notify_count_one p.children hnd c hc hn
  · exact finalize_callNotify_snapshot p.children hnd
  · exact finalize_free_all p.children
  · exact finalize_destroy_empty p.children

/-- Witness for C1 on a two-entry registry, one entry with a `NULL`
notifier. -/
theorem C1_finalize_drains_witness :
    ((⟨[⟨2, 1, 3⟩, ⟨4, 0, 5⟩], false, false⟩ : KeepAlive).children ≠ [] ∧
      (⟨[⟨2, 1, 3⟩, ⟨4, 0, 5⟩], false, false⟩ : KeepAlive).children.Nodup) ∧
    FinalizeDrainProp ⟨[⟨2, 1, 3⟩, ⟨4, 0, 5⟩], false, false⟩ :=
  ⟨⟨by decide, by decide⟩,
    C1_finalize_drains ⟨[⟨2, 1, 3⟩, ⟨4, 0, 5⟩], false, false⟩ (by decide) (by decide)⟩

/-- C6: a trace pass in which the visitor changes no entry's handle returns
normally, leaves the registry (in particular its triple set) identical, and
has `inside_trace` false again on return. -/
theorem C6_trace_preserves_membership (p : KeepAlive) (f : Handle → Handle)
    (htr : p.inside_trace = false)
    (hfix : ∀ e ∈ p.children, f e.child = e.child) :
    keep_alive_trace f p = (Outcome.ok, p) ∧
    (keep_alive_trace f p).2.inside_trace = false := by
  obtain ⟨cs, fin, tr⟩ := p
  replace htr : tr = false := htr
  subst htr
  replace hfix : ∀ e ∈ cs, f e.child = e.child := hfix
  have h1 : keep_alive_trace_table f cs = cs := trace_table_no_moves f cs hfix
  constructor
  · simp [keep_alive_trace, h1]
  · simp [keep_alive_trace, h1]

/-- Witness for C6 with the identity visitor. -/
theorem C6_trace_preserves_membership_witness :
    ((⟨[⟨2, 1, 3⟩], false, false⟩ : KeepAlive).inside_trace = false ∧
      ∀ e ∈ (⟨[⟨2, 1, 3⟩], false, false⟩ : KeepAlive).children, id e.child = e.child) ∧
    (keep_alive_trace id ⟨[⟨2, 1, 3⟩], false, false⟩ =
        (Outcome.ok, ⟨[⟨2, 1, 3⟩], false, false⟩) ∧
      (keep_alive_trace id ⟨[⟨2, 1, 3⟩], false, false⟩).2.inside_trace = false) :=
  ⟨⟨by decide, by decide⟩,
    C6_trace_preserves_membership ⟨[⟨2, 1, 3⟩], false, false⟩ id (by decide) (by decide)⟩

/-- The relocation behaviour claimed for a trace pass that moves the handle
of the entry `(n, h, d)` to `f h`: the pass returns normally; the entry is in
the table under its new identity; removing by the new handle value returns
normally and the new identity is gone afterwards; removing by the stale old
handle value returns normally and changes nothing. -/
def TraceRelocationProp (p : KeepAlive) (n : FuncPtr) (h : Handle) (d : Ptr)
    (f : Handle → Handle) : Prop :=
  (keep_alive_trace f p).1 = Outcome.ok ∧
  Child.mk (f h) n d ∈ (keep_alive_trace f p).2.children ∧
  (gjs_keep_alive_remove_child (keep_alive_trace f p).2 n (f h) d).1 = Outcome.ok ∧
  Child.mk (f h) n d ∉
    (gjs_keep_alive_remove_child (keep_alive_trace f p).2 n (f h) d).2.1.children ∧
  (gjs_keep_alive_remove_child (keep_alive_trace f p).2 n h d).1 = Outcome.ok ∧
  (gjs_keep_alive_remove_child (keep_alive_trace f p).2 n h d).2.1 =
    (keep_alive_trace f p).2

/-- C5: when trace relocates the registered entry `(n, h, d)` to the new
handle `f h` (and no entry of the table relocates onto the old triple), a
subsequent remove using the new handle value finds and removes the entry,
while a remove using the stale old handle value is a no-op. -/
theorem C5_trace_relocation (p : KeepAlive) (n : FuncPtr) (h : Handle) (d : Ptr)
    (f : Handle → Handle)
    (hnd : p.children.Nodup)
    (hmem : Child.mk h n d ∈ p.children)
    (_hmoved : f h ≠ h)
    (hold : ∀ e ∈ p.children, relocateChild f e ≠ Child.mk h n d)
    (htr : p.inside_trace = false) (hfin : p.inside_finalize = false) :
    TraceRelocationProp p n h d f := by
  obtain ⟨cs, fin, tr⟩ := p
  replace htr : tr = false := htr
  replace hfin : fin = false := hfin
  subst htr
  subst hfin
  replace hnd : cs.Nodup := hnd
  replace hmem : Child.mk h n d ∈ cs := hmem
  replace hold : ∀ e ∈ cs, relocateChild f e ≠ Child.mk h n d := hold
  have hTnd : (keep_alive_trace_table f cs).Nodup := nodup_trace_table f cs hnd
  have hnew_mem : Child.mk (f h) n d ∈ keep_alive_trace_table f cs := by
    have hrel := mem_trace_table_of_mem f cs ⟨h, n, d⟩ hmem
    simpa [relocateChild] using hrel
  have hold_not : Child.mk h n d ∉ keep_alive_trace_table f cs := by
    intro hmm
    obtain ⟨e, he, hex⟩ := mem_trace_table_elim f cs _ hmm
    exact hold e he hex.symm
  have hT : keep_alive_trace f ⟨cs, false, false⟩ =
      (Outcome.ok, ⟨keep_alive_trace_table f cs, false, false⟩) := by
    simp [keep_alive_trace]
  unfold TraceRelocationProp
  rw [hT]
  refine ⟨rfl, hnew_mem, rfl, ?_, rfl, ?_⟩
  · show Child.mk (f h) n d ∉ tableRemove (keep_alive_trace_table f cs) ⟨f h, n, d⟩
    intro hmm
    exact ((mem_tableRemove_iff _ _ _ hTnd).mp hmm).1 rfl
  · show (⟨tableRemove (keep_alive_trace_table f cs) ⟨h, n, d⟩, false, false⟩ : KeepAlive) =
      ⟨keep_alive_trace_table f cs, false, false⟩
    rw [tableRemove_of_not_mem _ _ hold_not]

/-- Witness for C5: a two-entry registry in which the visitor moves handle 2
to handle 20. -/
theorem C5_trace_relocation_witness :
    ((⟨[⟨2, 1, 3⟩, ⟨4, 7, 5⟩], false, false⟩ : KeepAlive).children.Nodup ∧
      Child.mk 2 1 3 ∈ (⟨[⟨2, 1, 3⟩, ⟨4, 7, 5⟩], false, false⟩ : KeepAlive).children ∧
      (fun x => if x = 2 then 20 else x) 2 ≠ 2 ∧
      (∀ e ∈ (⟨[⟨2, 1, 3⟩, ⟨4, 7, 5⟩], false, false⟩ : KeepAlive).children,
        relocateChild (fun x => if x = 2 then 20 else x) e ≠ Child.mk 2 1 3) ∧
      (⟨[⟨2, 1, 3⟩, ⟨4, 7, 5⟩], false, false⟩ : KeepAlive).inside_trace = false ∧
      (⟨[⟨2, 1, 3⟩, ⟨4, 7, 5⟩], false, false⟩ : KeepAlive).inside_finalize = false) ∧
    TraceRelocationProp ⟨[⟨2, 1, 3⟩, ⟨4, 7, 5⟩], false, false⟩ 1 2 3
      (fun x => if x = 2 then 20 else x) :=
  ⟨⟨by decide, by decide, by decide, by decide, by decide, by decide⟩,
    C5_trace_relocation ⟨[⟨2, 1, 3⟩, ⟨4, 7, 5⟩], false, false⟩ 1 2 3
      (fun x => if x = 2 then 20 else x)
      (by decide) (by decide) (by decide) (by decide) (by decide) (by decide)⟩
